import Mathlib

/-!
Verification of the circuit-drawer module (`strawberryfields/circuitdrawer.py`).

The module maintains a grid (`_circuit_matrix`): one list of cells per wire.
Cells are markup strings produced by a fixed table of format templates
(`qcircuit_strings`, outside the sources at hand); the templates are opaque
distinct format strings, so cells are embedded as an inductive type with one
constructor per template role: empty quantum wire `\qw[n]`, a labelled gate
component, a control marker carrying a signed distance, and the target marker.
The generated document is likewise a sequence of template instances, embedded
as a list of tokens.
-/

namespace CircuitDrawer

/-- A grid cell: one markup label occupying one wire at one column.
Modelled from the spec: the concrete template strings of `qcircuit_strings`
are opaque and pairwise distinct, so each template role is a constructor. -/
inductive Cell where
  | qw (width : Nat)
  | comp (label : String)
  | ctrl (distance : Int)
  | targ
deriving DecidableEq

/-- Python `QUANTUM_WIRE.format(n)`: the empty quantum-wire cell of width factor `n`. -/
def QUANTUM_WIRE (n : Nat) : Cell := Cell.qw n

/-- Python `CONTROL.format(d)`: a control marker carrying the signed distance `d`. -/
def CONTROL (d : Int) : Cell := Cell.ctrl d

/-- Python `TARGET`: the target marker cell. -/
def TARGET : Cell := Cell.targ

/-- Modelled from the spec: gate components are distinct labelled gate boxes. -/
def PAULI_X_COMP : Cell := Cell.comp "X"

def PAULI_Z_COMP : Cell := Cell.comp "Z"

def D_COMP : Cell := Cell.comp "D"

def S_COMP : Cell := Cell.comp "S"

def R_COMP : Cell := Cell.comp "R"

def P_COMP : Cell := Cell.comp "P"

def V_COMP : Cell := Cell.comp "V"

def K_COMP : Cell := Cell.comp "K"

def FOURIER_COMP : Cell := Cell.comp "F"

def BS_COMP : Cell := Cell.comp "BS"

/-- One emitted template instance of the output document.  `wireOp c` stands
for `_pad_with_spaces(WIRE_OPERATION.format(c))`; the spacing tokens stand for
the padded `COLUMN_SPACING` / `ROW_SPACING` directives. -/
inductive DocToken where
  | initDoc
  | colSpacing (s : Int)
  | rowSpacing (s : Int)
  | bodyStart
  | wireOp (c : Cell)
  | wireTerm
  | bodyTerm
  | docEnd
deriving DecidableEq

/-- The state of a `Circuit` object: the accumulated document, the grid
(one list of cells per wire), and the optional spacing configuration. -/
structure Circuit where
  document : List DocToken
  circuit_matrix : List (List Cell)
  column_spacing : Option Int
  row_spacing : Option Int
deriving DecidableEq

/-- Python `Circuit.__init__(wires)`: empty document, one single-cell row
`[QUANTUM_WIRE.format(1)]` per wire, no spacing configured. -/
def Circuit.init (wires : Nat) : Circuit where
  document := []
  circuit_matrix := List.replicate wires [QUANTUM_WIRE 1]
  column_spacing := none
  row_spacing := none

/-- Python `Circuit._is_empty(op)`: equality with the canonical empty-wire label. -/
def Circuit.is_empty (op : Cell) : Bool := op = QUANTUM_WIRE 1

/-- Python `wire_ops[-1]`.  In every reachable state rows are nonempty, so the
default value is irrelevant there; theorems that depend on the last cell carry
nonemptiness where it matters. -/
def lastCell (wire_ops : List Cell) : Cell := wire_ops.getLast?.getD (QUANTUM_WIRE 1)

/-- Python `wire_ops[-1] = c` (in-place overwrite of the last cell). -/
def setLast (wire_ops : List Cell) (c : Cell) : List Cell := wire_ops.dropLast ++ [c]

/-- Python `matrix[w]` (rows out of range never occur in reachable use). -/
def rowAt (matrix : List (List Cell)) (w : Nat) : List Cell := matrix.getD w []

/-- Python `Circuit._single_mode_gate(wire, circuit_op)`: if the last cell of `wire`
is empty, overwrite it in place; otherwise append `circuit_op` to `wire` and an
empty cell to every other wire (`matrix[:wire]` and `matrix[wire+1:]`). -/
def Circuit.single_mode_gate (c : Circuit) (wire : Nat) (circuit_op : Cell) : Circuit :=
  let matrix := c.circuit_matrix
  let wire_ops := rowAt matrix wire
  if Circuit.is_empty (lastCell wire_ops) then
    { c with circuit_matrix := matrix.set wire (setLast wire_ops circuit_op) }
  else
    { c with circuit_matrix :=
        matrix.mapIdx fun i row =>
          if i = wire then row ++ [circuit_op] else row ++ [QUANTUM_WIRE 1] }

/-- Python `Circuit._on_empty_column()`: every wire's last cell is the empty label. -/
def Circuit.on_empty_column (c : Circuit) : Bool :=
  c.circuit_matrix.all fun wire_ops => Circuit.is_empty (lastCell wire_ops)

/-- Python `Circuit._add_column()`: append an empty cell to every wire. -/
def Circuit.add_column (c : Circuit) : Circuit :=
  { c with circuit_matrix := c.circuit_matrix.map fun wire => wire ++ [QUANTUM_WIRE 1] }

/-- Python `Circuit._multi_mode_gate(circuit_op, wires)`: if the rightmost column is
not entirely empty, add a column; then overwrite the last cell of each wire in
`wires` with `circuit_op`. -/
def Circuit.multi_mode_gate (c : Circuit) (circuit_op : Cell) (wires : List Nat) : Circuit :=
  let c1 := if c.on_empty_column then c else c.add_column
  { c1 with circuit_matrix :=
      wires.foldl (fun m w => m.set w (setLast (rowAt m w) circuit_op)) c1.circuit_matrix }

/-- Python `Circuit._controlled_mode_gate(source_wire, target_wire, circuit_op)`:
`distance = target_wire - source_wire`; if both last cells are empty, overwrite
source with `CONTROL.format(distance)` and target with `circuit_op` in place;
otherwise append to every wire (control marker on source, the operator on
target, empty elsewhere). -/
def Circuit.controlled_mode_gate (c : Circuit) (source_wire target_wire : Nat)
    (circuit_op : Cell) : Circuit :=
  let matrix := c.circuit_matrix
  let source_ops := rowAt matrix source_wire
  let target_ops := rowAt matrix target_wire
  let distance : Int := (target_wire : Int) - (source_wire : Int)
  if Circuit.is_empty (lastCell source_ops) && Circuit.is_empty (lastCell target_ops) then
    let m1 := matrix.set source_wire (setLast source_ops (CONTROL distance))
    let m2 := m1.set target_wire (setLast target_ops circuit_op)
    { c with circuit_matrix := m2 }
  else
    { c with circuit_matrix :=
        matrix.mapIdx fun i row =>
          if i = source_wire then row ++ [CONTROL distance]
          else if i = target_wire then row ++ [circuit_op]
          else row ++ [QUANTUM_WIRE 1] }

/-- The per-gate methods of the `Circuit` class, as an enumerated tag. -/
inductive GateMethod where
  | x | z | d | s | r | p | v | k | fourier
  | cx | cz | ck | bs | s2
deriving DecidableEq

/-- Python `Circuit.single_mode_gates`: name keys and methods, in insertion order. -/
def single_mode_gates : List (String × GateMethod) :=
  [("Xgate", GateMethod.x), ("Zgate", GateMethod.z), ("Dgate", GateMethod.d),
   ("Sgate", GateMethod.s), ("Rgate", GateMethod.r), ("Pgate", GateMethod.p),
   ("Vgate", GateMethod.v), ("Kgate", GateMethod.k), ("FourierGate", GateMethod.fourier)]

/-- Python `Circuit.two_mode_gates`: name keys and methods, in insertion order. -/
def two_mode_gates : List (String × GateMethod) :=
  [("CXgate", GateMethod.cx), ("CZgate", GateMethod.cz), ("CKgate", GateMethod.ck),
   ("BSgate", GateMethod.bs), ("S2gate", GateMethod.s2)]

/-- Contiguous-sublist test on character lists (Python `needle in hay`). -/
def hasSubAux (needle : List Char) : List Char → Bool
  | [] => needle.isEmpty
  | c :: rest => needle.isPrefixOf (c :: rest) || hasSubAux needle rest

/-- Python substring containment `needle in hay` for strings. -/
def strHasSub (hay needle : String) : Bool := hasSubAux needle.toList hay.toList

/-- The fold performed by each lookup loop of `_gate_from_operator`: every
matching key overwrites the running `(method, mode)` pair (the loops have no
`break`, so the last matching key wins). -/
def classifyFold (table : List (String × GateMethod)) (mode : Nat) (operator : String)
    (acc : Option (GateMethod × Nat)) : Option (GateMethod × Nat) :=
  table.foldl (fun acc p => if strHasSub operator p.1 then some (p.2, mode) else acc) acc

/-- Python `Circuit._gate_from_operator(op)`: scan `two_mode_gates` first (mode 2);
only if no two-mode key is a substring of the operator string is
`single_mode_gates` scanned (mode 1); otherwise `(None, None)`. -/
def gate_from_operator (operator : String) : Option (GateMethod × Nat) :=
  match classifyFold two_mode_gates 2 operator none with
  | none => classifyFold single_mode_gates 1 operator none
  | some r => some r

/-- Python `Circuit._x(wire)`. -/
def Circuit.gx (c : Circuit) (wire : Nat) : Circuit := c.single_mode_gate wire PAULI_X_COMP

/-- Python `Circuit._z(wire)`. -/
def Circuit.gz (c : Circuit) (wire : Nat) : Circuit := c.single_mode_gate wire PAULI_Z_COMP

/-- Python `Circuit._s(wire)`. -/
def Circuit.gs (c : Circuit) (wire : Nat) : Circuit := c.single_mode_gate wire S_COMP

/-- Python `Circuit._d(wire)`. -/
def Circuit.gd (c : Circuit) (wire : Nat) : Circuit := c.single_mode_gate wire D_COMP

/-- Python `Circuit._r(wire)`. -/
def Circuit.gr (c : Circuit) (wire : Nat) : Circuit := c.single_mode_gate wire R_COMP

/-- Python `Circuit._p(wire)`. -/
def Circuit.gp (c : Circuit) (wire : Nat) : Circuit := c.single_mode_gate wire P_COMP

/-- Python `Circuit._v(wire)`. -/
def Circuit.gv (c : Circuit) (wire : Nat) : Circuit := c.single_mode_gate wire V_COMP

/-- Python `Circuit._k(wire)`. -/
def Circuit.gk (c : Circuit) (wire : Nat) : Circuit := c.single_mode_gate wire K_COMP

/-- Python `Circuit._fourier(wire)`. -/
def Circuit.gfourier (c : Circuit) (wire : Nat) : Circuit :=
  c.single_mode_gate wire FOURIER_COMP

/-- Python `Circuit._cx(source_wire, target_wire)`. -/
def Circuit.gcx (c : Circuit) (source_wire target_wire : Nat) : Circuit :=
  c.controlled_mode_gate source_wire target_wire TARGET

/-- Python `Circuit._cz(source_wire, target_wire)`. -/
def Circuit.gcz (c : Circuit) (source_wire target_wire : Nat) : Circuit :=
  c.controlled_mode_gate source_wire target_wire PAULI_Z_COMP

/-- Python `Circuit._ck(source_wire, target_wire)`. -/
def Circuit.gck (c : Circuit) (source_wire target_wire : Nat) : Circuit :=
  c.controlled_mode_gate source_wire target_wire K_COMP

/-- Python `Circuit._bs(first_wire, second_wire)`. -/
def Circuit.gbs (c : Circuit) (first_wire second_wire : Nat) : Circuit :=
  c.multi_mode_gate BS_COMP [first_wire, second_wire]

/-- Python `Circuit._s2(first_wire, second_wire)`. -/
def Circuit.gs2 (c : Circuit) (first_wire second_wire : Nat) : Circuit :=
  c.multi_mode_gate S_COMP [first_wire, second_wire]

/-- A gate-application event: the operator's descriptive string (the part of
`str(op)` the tables are matched against) and the wire indices of `op.reg`. -/
structure Event where
  opStr : String
  wires : List Nat
deriving DecidableEq

/-- The two exceptions `parse_op` can raise, carrying their message strings. -/
inductive DrawerError where
  | unsupportedGate (message : String)
  | modeMismatch (message : String)
deriving DecidableEq

/-- The message of `UnsupportedGateException` built at `parse_op`. -/
def unsupportedMessage (opStr : String) : String :=
  "Unsupported operation " ++ opStr ++ " not printable by circuit builder!"

/-- The message of `ModeMismatchException` built at `parse_op`:
`'{0} mode gate applied to {1} wires!'.format(mode, len(wires))`. -/
def mismatchMessage (mode : Nat) (nWires : Nat) : String :=
  toString mode ++ " mode gate applied to " ++ toString nWires ++ " wires!"

/-- Python `method(*wires)`: dispatch of the matched method on the event's wires.
`parse_op` only calls this when the wire count equals the matched mode, so
every reachable case is covered; the fallback returns the circuit unchanged. -/
def Circuit.applyMethod (c : Circuit) (m : GateMethod) (wires : List Nat) : Circuit :=
  match m, wires with
  | GateMethod.x, [w] => c.gx w
  | GateMethod.z, [w] => c.gz w
  | GateMethod.d, [w] => c.gd w
  | GateMethod.s, [w] => c.gs w
  | GateMethod.r, [w] => c.gr w
  | GateMethod.p, [w] => c.gp w
  | GateMethod.v, [w] => c.gv w
  | GateMethod.k, [w] => c.gk w
  | GateMethod.fourier, [w] => c.gfourier w
  | GateMethod.cx, [a, b] => c.gcx a b
  | GateMethod.cz, [a, b] => c.gcz a b
  | GateMethod.ck, [a, b] => c.gck a b
  | GateMethod.bs, [a, b] => c.gbs a b
  | GateMethod.s2, [a, b] => c.gs2 a b
  | _, _ => c

/-- Python `Circuit.parse_op(op)`: classify the operator; raise
`UnsupportedGateException` if no table matched, dispatch the method if the
wire count equals the matched mode, and raise `ModeMismatchException`
otherwise.  The returned pair is the circuit state after the call and the
raised exception, if any. -/
def Circuit.parse_op (c : Circuit) (ev : Event) : Circuit × Option DrawerError :=
  match gate_from_operator ev.opStr with
  | none => (c, some (DrawerError.unsupportedGate (unsupportedMessage ev.opStr)))
  | some (method, mode) =>
    if mode = ev.wires.length then (c.applyMethod method ev.wires, none)
    else (c, some (DrawerError.modeMismatch (mismatchMessage mode ev.wires.length)))

/-- Feeding a stream of events through `parse_op`; an event that raises leaves
the state unchanged (the exception propagates to the caller). -/
def Circuit.applyEvents (c : Circuit) (evs : List Event) : Circuit :=
  evs.foldl (fun st ev => (st.parse_op ev).1) c

/-- Python `Circuit._set_column_spacing(spacing)`. -/
def Circuit.set_column_spacing (c : Circuit) (spacing : Int) : Circuit :=
  { c with column_spacing := some spacing }

/-- Python `Circuit._set_row_spacing(spacing)`. -/
def Circuit.set_row_spacing (c : Circuit) (spacing : Int) : Circuit :=
  { c with row_spacing := some spacing }

/-- Python `Circuit._apply_spacing()`: the spacing directives emitted after the
preamble, column spacing first, each only when configured. -/
def spacingTokens (c : Circuit) : List DocToken :=
  (match c.column_spacing with
   | some s => [DocToken.colSpacing s]
   | none => []) ++
  (match c.row_spacing with
   | some s => [DocToken.rowSpacing s]
   | none => [])

/-- Python `Circuit.dump_to_document()`: reset the document to the preamble, apply
spacing, open the circuit body, then for each wire in order emit all its cells
followed by a wire terminator, close the body and the document, and return the
accumulated document (which is also stored on the circuit). -/
def Circuit.dump_to_document (c : Circuit) : List DocToken × Circuit :=
  let d0 : List DocToken := [DocToken.initDoc]
  let d1 := d0 ++ spacingTokens c
  let d2 := d1 ++ [DocToken.bodyStart]
  let d3 := c.circuit_matrix.foldl
    (fun doc wire_ops =>
      (wire_ops.foldl (fun doc wire_op => doc ++ [DocToken.wireOp wire_op]) doc)
        ++ [DocToken.wireTerm])
    d2
  let d4 := d3 ++ [DocToken.bodyTerm]
  let d5 := d4 ++ [DocToken.docEnd]
  (d5, { c with document := d5 })

/-- All wire sequences of the grid have equal length (the grid is rectangular). -/
def rectangular (m : List (List Cell)) : Prop := ∃ n, ∀ row ∈ m, row.length = n

/-- Rectangular with positive row length: the shape invariant the engine keeps. -/
def goodGrid (m : List (List Cell)) : Prop := ∃ n, 0 < n ∧ ∀ row ∈ m, row.length = n

/- ### Helper lemmas -/

theorem lastCell_concat (l : List Cell) (x : Cell) : lastCell (l ++ [x]) = x := by
  simp [lastCell, List.getLast?_concat]

theorem setLast_concat (l : List Cell) (x y : Cell) : setLast (l ++ [y]) x = l ++ [x] := by
  simp [setLast, List.dropLast_concat]

theorem lastCell_setLast (l : List Cell) (x : Cell) : lastCell (setLast l x) = x := by
  simp [setLast, lastCell, List.getLast?_concat]

theorem dropLast_setLast (l : List Cell) (x : Cell) :
    (setLast l x).dropLast = l.dropLast := by
  simp [setLast, List.dropLast_concat]

theorem setLast_setLast (l : List Cell) (x y : Cell) :
    setLast (setLast l x) y = setLast l y := by
  simp [setLast, List.dropLast_concat]

theorem length_setLast (l : List Cell) (x : Cell) (h : l ≠ []) :
    (setLast l x).length = l.length := by
  have hpos : 0 < l.length := List.length_pos.mpr h
  simp [setLast]
  omega

theorem rowAt_eq_getElem (m : List (List Cell)) (i : Nat) (h : i < m.length) :
    rowAt m i = m[i] := by
  simp [rowAt, List.getD_eq_getElem?_getD, List.getElem?_eq_getElem h]

theorem rowAt_set_self (m : List (List Cell)) (w : Nat) (r : List Cell) (h : w < m.length) :
    rowAt (m.set w r) w = r := by
  simp [rowAt, List.getD_eq_getElem?_getD, List.getElem?_set_self h]

theorem rowAt_set_ne (m : List (List Cell)) (w i : Nat) (r : List Cell) (h : w ≠ i) :
    rowAt (m.set w r) i = rowAt m i := by
  simp [rowAt, List.getD_eq_getElem?_getD, List.getElem?_set_ne h]

theorem rowAt_mapIdx (f : Nat → List Cell → List Cell) (m : List (List Cell)) (i : Nat)
    (h : i < m.length) :
    rowAt (m.mapIdx f) i = f i (rowAt m i) := by
  simp [rowAt, List.getD_eq_getElem?_getD, List.getElem?_mapIdx, List.getElem?_eq_getElem h]

theorem rowAt_map (f : List Cell → List Cell) (m : List (List Cell)) (i : Nat)
    (h : i < m.length) :
    rowAt (m.map f) i = f (rowAt m i) := by
  simp [rowAt, List.getD_eq_getElem?_getD, List.getElem?_eq_getElem h]

theorem is_empty_iff (c : Cell) : Circuit.is_empty c = true ↔ c = QUANTUM_WIRE 1 := by
  simp [Circuit.is_empty]

theorem is_empty_qw1 : Circuit.is_empty (QUANTUM_WIRE 1) = true := by
  simp [Circuit.is_empty]

theorem goodGrid_iff (m : List (List Cell)) :
    goodGrid m ↔ ∃ n, 0 < n ∧ ∀ i, (h : i < m.length) → m[i].length = n := by
  constructor
  · rintro ⟨n, hn, hrows⟩
    exact ⟨n, hn, fun i h => hrows m[i] (List.getElem_mem h)⟩
  · rintro ⟨n, hn, hrows⟩
    refine ⟨n, hn, fun row hrow => ?_⟩
    obtain ⟨i, h, rfl⟩ := List.mem_iff_getElem.mp hrow
    exact hrows i h

theorem rectangular_of_goodGrid (m : List (List Cell)) (h : goodGrid m) : rectangular m := by
  obtain ⟨n, _, hrows⟩ := h
  exact ⟨n, hrows⟩

theorem single_mode_gate_reuse (c : Circuit) (wire : Nat) (op : Cell)
    (h : Circuit.is_empty (lastCell (rowAt c.circuit_matrix wire)) = true) :
    c.single_mode_gate wire op =
      { c with circuit_matrix :=
          c.circuit_matrix.set wire (setLast (rowAt c.circuit_matrix wire) op) } := by
  simp [Circuit.single_mode_gate, h]

theorem single_mode_gate_overflow (c : Circuit) (wire : Nat) (op : Cell)
    (h : Circuit.is_empty (lastCell (rowAt c.circuit_matrix wire)) = false) :
    c.single_mode_gate wire op =
      { c with circuit_matrix :=
          c.circuit_matrix.mapIdx fun i row =>
            if i = wire then row ++ [op] else row ++ [QUANTUM_WIRE 1] } := by
  simp [Circuit.single_mode_gate, h]

theorem controlled_mode_gate_reuse (c : Circuit) (s t : Nat) (op : Cell)
    (hs : Circuit.is_empty (lastCell (rowAt c.circuit_matrix s)) = true)
    (ht : Circuit.is_empty (lastCell (rowAt c.circuit_matrix t)) = true) :
    c.controlled_mode_gate s t op =
      { c with circuit_matrix :=
          (List.set
            (c.circuit_matrix.set s
              (setLast (rowAt c.circuit_matrix s) (CONTROL ((t : Int) - (s : Int)))))
            t (setLast (rowAt c.circuit_matrix t) op)) } := by
  simp [Circuit.controlled_mode_gate, hs, ht]

theorem controlled_mode_gate_overflow (c : Circuit) (s t : Nat) (op : Cell)
    (h : (Circuit.is_empty (lastCell (rowAt c.circuit_matrix s)) &&
          Circuit.is_empty (lastCell (rowAt c.circuit_matrix t))) = false) :
    c.controlled_mode_gate s t op =
      { c with circuit_matrix :=
          c.circuit_matrix.mapIdx fun i row =>
            if i = s then row ++ [CONTROL ((t : Int) - (s : Int))]
            else if i = t then row ++ [op]
            else row ++ [QUANTUM_WIRE 1] } := by
  simp only [Circuit.controlled_mode_gate, h]
  simp

/-- The grid after the overwrite loop of `_multi_mode_gate`, row by row. -/
theorem multi_fold_rowAt (op : Cell) (ws : List Nat) (m : List (List Cell)) (i : Nat)
    (hi : i < m.length) :
    rowAt (ws.foldl (fun m w => m.set w (setLast (rowAt m w) op)) m) i =
      if i ∈ ws then setLast (rowAt m i) op else rowAt m i := by
  induction ws generalizing m with
  | nil => simp
  | cons w ws ih =>
    simp only [List.foldl_cons]
    by_cases hw : i = w
    · subst hw
      have hset : rowAt (m.set i (setLast (rowAt m i) op)) i = setLast (rowAt m i) op :=
        rowAt_set_self m i _ hi
      rw [ih _ (by simpa using hi), hset]
      by_cases hmem : i ∈ ws <;> simp [hmem, setLast_setLast]
    · have hset : rowAt (m.set w (setLast (rowAt m w) op)) i = rowAt m i :=
        rowAt_set_ne m w i _ (fun hc => hw hc.symm)
      rw [ih _ (by simpa using hi), hset]
      by_cases hmem : i ∈ ws <;> simp [hmem, hw]

theorem multi_fold_length (op : Cell) (ws : List Nat) (m : List (List Cell)) :
    (ws.foldl (fun m w => m.set w (setLast (rowAt m w) op)) m).length = m.length := by
  induction ws generalizing m with
  | nil => rfl
  | cons w ws ih => simp [List.foldl_cons, ih]

theorem on_empty_column_eq_false_iff (c : Circuit) :
    c.on_empty_column = false ↔
      ∃ i, ∃ h : i < c.circuit_matrix.length,
        Circuit.is_empty (lastCell c.circuit_matrix[i]) = false := by
  rw [Circuit.on_empty_column]
  constructor
  · intro h
    by_contra hc
    push_neg at hc
    have : ∀ row ∈ c.circuit_matrix, Circuit.is_empty (lastCell row) = true := by
      intro row hrow
      obtain ⟨i, hilt, rfl⟩ := List.mem_iff_getElem.mp hrow
      have := hc i hilt
      simpa using this
    simp [List.all_eq_true.mpr this] at h
  · rintro ⟨i, hilt, hocc⟩
    by_contra h
    rw [Bool.not_eq_false, List.all_eq_true] at h
    have := h c.circuit_matrix[i] (List.getElem_mem hilt)
    simp [hocc] at this

/-- The grid after `_multi_mode_gate` when the rightmost column is occupied:
a fresh column is added, then the targeted wires' last cells are overwritten. -/
theorem multi_mode_gate_occupied_rowAt (c : Circuit) (op : Cell) (ws : List Nat)
    (hocc : c.on_empty_column = false) (i : Nat) (hi : i < c.circuit_matrix.length) :
    rowAt (c.multi_mode_gate op ws).circuit_matrix i =
      if i ∈ ws then rowAt c.circuit_matrix i ++ [op]
      else rowAt c.circuit_matrix i ++ [QUANTUM_WIRE 1] := by
  have hmap : rowAt (c.circuit_matrix.map fun wire => wire ++ [QUANTUM_WIRE 1]) i =
      rowAt c.circuit_matrix i ++ [QUANTUM_WIRE 1] := rowAt_map _ _ _ hi
  have hlen : i < (c.circuit_matrix.map fun wire => wire ++ [QUANTUM_WIRE 1]).length := by
    simpa using hi
  rw [Circuit.multi_mode_gate]
  simp only [hocc, Bool.false_eq_true, if_false, Circuit.add_column]
  rw [multi_fold_rowAt op ws _ i hlen, hmap]
  by_cases hmem : i ∈ ws <;> simp [hmem, setLast_concat]

theorem multi_mode_gate_occupied_length (c : Circuit) (op : Cell) (ws : List Nat)
    (hocc : c.on_empty_column = false) :
    (c.multi_mode_gate op ws).circuit_matrix.length = c.circuit_matrix.length := by
  rw [Circuit.multi_mode_gate]
  simp only [hocc, Bool.false_eq_true, if_false, Circuit.add_column]
  rw [multi_fold_length]
  simp

theorem goodGrid_set_setLast (m : List (List Cell)) (w : Nat) (x : Cell)
    (h : goodGrid m) : goodGrid (m.set w (setLast (rowAt m w) x)) := by
  obtain ⟨n, hn, hrows⟩ := (goodGrid_iff m).mp h
  refine (goodGrid_iff _).mpr ⟨n, hn, fun i hi => ?_⟩
  have hi' : i < m.length := by simpa using hi
  by_cases hw : w = i
  · subst hw
    have : rowAt (m.set w (setLast (rowAt m w) x)) w = setLast (rowAt m w) x :=
      rowAt_set_self m w _ hi'
    rw [rowAt_eq_getElem _ _ hi] at this
    rw [this, length_setLast, rowAt_eq_getElem _ _ hi']
    · exact hrows w hi'
    · rw [rowAt_eq_getElem _ _ hi']
      intro hnil
      have := hrows w hi'
      rw [hnil] at this
      simp at this
      omega
  · have : rowAt (m.set w (setLast (rowAt m w) x)) i = rowAt m i := rowAt_set_ne m w i _ hw
    rw [rowAt_eq_getElem _ _ hi, rowAt_eq_getElem _ _ hi'] at this
    rw [this]
    exact hrows i hi'

theorem goodGrid_append_mapIdx (m : List (List Cell)) (g : Nat → Cell)
    (h : goodGrid m) : goodGrid (m.mapIdx fun i row => row ++ [g i]) := by
  obtain ⟨n, hn, hrows⟩ := (goodGrid_iff m).mp h
  refine (goodGrid_iff _).mpr ⟨n + 1, Nat.succ_pos n, fun i hi => ?_⟩
  have hi' : i < m.length := by simpa using hi
  have := rowAt_mapIdx (fun i row => row ++ [g i]) m i hi'
  rw [rowAt_eq_getElem _ _ hi, rowAt_eq_getElem _ _ hi'] at this
  rw [this]
  simp [hrows i hi']

theorem rows_len_set (m : List (List Cell)) (n w : Nat) (r : List Cell)
    (hrows : ∀ i, (h : i < m.length) → m[i].length = n)
    (hr : w < m.length → r.length = n) :
    ∀ i, (h : i < (m.set w r).length) → (m.set w r)[i].length = n := by
  intro i hi
  have hi' : i < m.length := by simpa using hi
  by_cases hwi : w = i
  · subst hwi
    have : rowAt (m.set w r) w = r := rowAt_set_self m w r hi'
    rw [rowAt_eq_getElem _ _ hi] at this
    rw [this]
    exact hr hi'
  · have : rowAt (m.set w r) i = rowAt m i := rowAt_set_ne m w i r hwi
    rw [rowAt_eq_getElem _ _ hi, rowAt_eq_getElem _ _ hi'] at this
    rw [this]
    exact hrows i hi'

theorem goodGrid_single_mode_gate (c : Circuit) (wire : Nat) (op : Cell)
    (h : goodGrid c.circuit_matrix) :
    goodGrid (c.single_mode_gate wire op).circuit_matrix := by
  by_cases hbr : Circuit.is_empty (lastCell (rowAt c.circuit_matrix wire)) = true
  · rw [single_mode_gate_reuse c wire op hbr]
    exact goodGrid_set_setLast _ _ _ h
  · rw [single_mode_gate_overflow c wire op (Bool.not_eq_true _ ▸ hbr)]
    have := goodGrid_append_mapIdx c.circuit_matrix
      (fun i => if i = wire then op else QUANTUM_WIRE 1) h
    refine (goodGrid_iff _).mpr ?_
    obtain ⟨n, hn, hrows⟩ := (goodGrid_iff _).mp this
    refine ⟨n, hn, fun i hi => ?_⟩
    have hlen : (c.circuit_matrix.mapIdx fun i row =>
        if i = wire then row ++ [op] else row ++ [QUANTUM_WIRE 1]).length =
        (c.circuit_matrix.mapIdx fun i row =>
          row ++ [if i = wire then op else QUANTUM_WIRE 1]).length := by
      simp
    have hi2 : i < (c.circuit_matrix.mapIdx fun i row =>
        row ++ [if i = wire then op else QUANTUM_WIRE 1]).length := by
      rw [← hlen]; exact hi
    have hi' : i < c.circuit_matrix.length := by simpa using hi
    have h1 := rowAt_mapIdx (fun i row =>
      if i = wire then row ++ [op] else row ++ [QUANTUM_WIRE 1]) c.circuit_matrix i hi'
    have h2 := rowAt_mapIdx (fun i row =>
      row ++ [if i = wire then op else QUANTUM_WIRE 1]) c.circuit_matrix i hi'
    rw [rowAt_eq_getElem _ _ hi] at h1
    rw [rowAt_eq_getElem _ _ hi2] at h2
    rw [h1]
    have := hrows i hi2
    rw [h2] at this
    by_cases hw : i = wire <;> simp [hw] at this ⊢ <;> omega

theorem goodGrid_multi_fold (op : Cell) (ws : List Nat) (m : List (List Cell))
    (h : goodGrid m) :
    goodGrid (ws.foldl (fun m w => m.set w (setLast (rowAt m w) op)) m) := by
  induction ws generalizing m with
  | nil => exact h
  | cons w ws ih =>
    simp only [List.foldl_cons]
    exact ih _ (goodGrid_set_setLast m w op h)

theorem goodGrid_add_column (c : Circuit) (h : goodGrid c.circuit_matrix) :
    goodGrid c.add_column.circuit_matrix := by
  obtain ⟨n, hn, hrows⟩ := h
  refine ⟨n + 1, Nat.succ_pos n, fun row hrow => ?_⟩
  simp only [Circuit.add_column, List.mem_map] at hrow
  obtain ⟨r, hr, rfl⟩ := hrow
  simp [hrows r hr]

theorem goodGrid_multi_mode_gate (c : Circuit) (op : Cell) (ws : List Nat)
    (h : goodGrid c.circuit_matrix) :
    goodGrid (c.multi_mode_gate op ws).circuit_matrix := by
  rw [Circuit.multi_mode_gate]
  by_cases hcol : c.on_empty_column = true
  · simp only [hcol, if_true]
    exact goodGrid_multi_fold op ws _ h
  · simp only [Bool.not_eq_true] at hcol
    simp only [hcol, Bool.false_eq_true, if_false]
    exact goodGrid_multi_fold op ws _ (goodGrid_add_column c h)

theorem goodGrid_controlled_mode_gate (c : Circuit) (s t : Nat) (op : Cell)
    (h : goodGrid c.circuit_matrix) :
    goodGrid (c.controlled_mode_gate s t op).circuit_matrix := by
  by_cases hbr : (Circuit.is_empty (lastCell (rowAt c.circuit_matrix s)) &&
      Circuit.is_empty (lastCell (rowAt c.circuit_matrix t))) = true
  · rw [Bool.and_eq_true] at hbr
    obtain ⟨hs, ht⟩ := hbr
    rw [controlled_mode_gate_reuse c s t op hs ht]
    obtain ⟨n, hn, hrows⟩ := (goodGrid_iff _).mp h
    have hnonnil : ∀ w, (hw : w < c.circuit_matrix.length) →
        (setLast (rowAt c.circuit_matrix w) op).length = n ∧
        (setLast (rowAt c.circuit_matrix w) (CONTROL ((t : Int) - (s : Int)))).length = n := by
      intro w hw
      have hne : rowAt c.circuit_matrix w ≠ [] := by
        rw [rowAt_eq_getElem _ _ hw]
        intro hnil
        have := hrows w hw
        rw [hnil] at this
        simp at this
        omega
      constructor
      · rw [length_setLast _ _ hne, rowAt_eq_getElem _ _ hw]
        exact hrows w hw
      · rw [length_setLast _ _ hne, rowAt_eq_getElem _ _ hw]
        exact hrows w hw
    have h1 := rows_len_set c.circuit_matrix n s
      (setLast (rowAt c.circuit_matrix s) (CONTROL ((t : Int) - (s : Int)))) hrows
      (fun hw => (hnonnil s hw).2)
    have h2 := rows_len_set _ n t (setLast (rowAt c.circuit_matrix t) op) h1
      (fun hw => (hnonnil t (by simpa using hw)).1)
    exact (goodGrid_iff _).mpr ⟨n, hn, h2⟩
  · rw [controlled_mode_gate_overflow c s t op (Bool.not_eq_true _ ▸ hbr)]
    obtain ⟨n, hn, hrows⟩ := (goodGrid_iff _).mp h
    refine (goodGrid_iff _).mpr ⟨n + 1, Nat.succ_pos n, fun i hi => ?_⟩
    have hi' : i < c.circuit_matrix.length := by simpa using hi
    have h1 := rowAt_mapIdx (fun i row =>
      if i = s then row ++ [CONTROL ((t : Int) - (s : Int))]
      else if i = t then row ++ [op]
      else row ++ [QUANTUM_WIRE 1]) c.circuit_matrix i hi'
    rw [rowAt_eq_getElem _ _ hi, rowAt_eq_getElem _ _ hi'] at h1
    rw [h1]
    have := hrows i hi'
    by_cases h1' : i = s
    · simp [h1', this, hrows s (h1' ▸ hi')]
    · by_cases h2' : i = t
      · subst h2'
        simp [h1', this]
      · simp [h1', h2', this]

theorem goodGrid_applyMethod (c : Circuit) (m : GateMethod) (wires : List Nat)
    (h : goodGrid c.circuit_matrix) :
    goodGrid (c.applyMethod m wires).circuit_matrix := by
  unfold Circuit.applyMethod
  split
  all_goals first
    | exact h
    | (simp only [Circuit.gx, Circuit.gz, Circuit.gd, Circuit.gs, Circuit.gr, Circuit.gp,
        Circuit.gv, Circuit.gk, Circuit.gfourier, Circuit.gcx, Circuit.gcz, Circuit.gck,
        Circuit.gbs, Circuit.gs2]
       first
        | exact goodGrid_single_mode_gate _ _ _ h
        | exact goodGrid_controlled_mode_gate _ _ _ _ h
        | exact goodGrid_multi_mode_gate _ _ _ h)

theorem goodGrid_parse_op (c : Circuit) (ev : Event) (h : goodGrid c.circuit_matrix) :
    goodGrid (c.parse_op ev).1.circuit_matrix := by
  rw [Circuit.parse_op]
  rcases hcl : gate_from_operator ev.opStr with _ | ⟨method, mode⟩
  · exact h
  · by_cases hmode : mode = ev.wires.length
    · simp only [hmode, if_true]
      exact goodGrid_applyMethod c method ev.wires h
    · simp only [hmode, if_false]
      exact h

theorem goodGrid_init (W : Nat) : goodGrid (Circuit.init W).circuit_matrix := by
  refine ⟨1, Nat.one_pos, fun row hrow => ?_⟩
  simp only [Circuit.init, List.mem_replicate] at hrow
  rw [hrow.2]
  rfl

theorem goodGrid_applyEvents (c : Circuit) (evs : List Event)
    (h : goodGrid c.circuit_matrix) :
    goodGrid (c.applyEvents evs).circuit_matrix := by
  induction evs generalizing c with
  | nil => exact h
  | cons ev evs ih =>
    simp only [Circuit.applyEvents, List.foldl_cons]
    exact ih _ (goodGrid_parse_op c ev h)

/- ### Claim theorems -/

/-- C1: for every sequence of gate events fed through `parse_op` to a circuit
built with `W` wires, the grid is rectangular after every accepted event (an
event that raises leaves the grid untouched), and each of the three mutation
strategies — single-mode, multi-mode and controlled-mode — preserves the
engine's shape invariant (rectangular with nonempty rows), hence
rectangularity. -/
theorem claim1_rectangularity :
    (∀ (W : Nat) (evs : List Event),
        rectangular ((Circuit.init W).applyEvents evs).circuit_matrix) ∧
    (∀ (c : Circuit) (wire : Nat) (op : Cell), goodGrid c.circuit_matrix →
        goodGrid (c.single_mode_gate wire op).circuit_matrix ∧
        rectangular (c.single_mode_gate wire op).circuit_matrix) ∧
    (∀ (c : Circuit) (op : Cell) (ws : List Nat), goodGrid c.circuit_matrix →
        goodGrid (c.multi_mode_gate op ws).circuit_matrix ∧
        rectangular (c.multi_mode_gate op ws).circuit_matrix) ∧
    (∀ (c : Circuit) (s t : Nat) (op : Cell), goodGrid c.circuit_matrix →
        goodGrid (c.controlled_mode_gate s t op).circuit_matrix ∧
        rectangular (c.controlled_mode_gate s t op).circuit_matrix) := by
  refine ⟨fun W evs =>
      rectangular_of_goodGrid _ (goodGrid_applyEvents _ _ (goodGrid_init W)),
    fun c wire op h => ?_, fun c op ws h => ?_, fun c s t op h => ?_⟩
  · exact ⟨goodGrid_single_mode_gate c wire op h,
      rectangular_of_goodGrid _ (goodGrid_single_mode_gate c wire op h)⟩
  · exact ⟨goodGrid_multi_mode_gate c op ws h,
      rectangular_of_goodGrid _ (goodGrid_multi_mode_gate c op ws h)⟩
  · exact ⟨goodGrid_controlled_mode_gate c s t op h,
      rectangular_of_goodGrid _ (goodGrid_controlled_mode_gate c s t op h)⟩

theorem claim1_rectangularity_witness :
    rectangular ((Circuit.init 2).applyEvents
      [⟨"Dgate(0.7)", [0]⟩, ⟨"BSgate(0.5)", [0, 1]⟩]).circuit_matrix ∧
    rectangular (((Circuit.init 2)).single_mode_gate 0 D_COMP).circuit_matrix ∧
    rectangular ((Circuit.init 2).multi_mode_gate BS_COMP [0, 1]).circuit_matrix ∧
    rectangular ((Circuit.init 2).controlled_mode_gate 0 1 TARGET).circuit_matrix :=
  ⟨claim1_rectangularity.1 2 _,
   (claim1_rectangularity.2.1 (Circuit.init 2) 0 D_COMP ⟨1, Nat.one_pos, by decide⟩).2,
   (claim1_rectangularity.2.2.1 (Circuit.init 2) BS_COMP [0, 1]
     ⟨1, Nat.one_pos, by decide⟩).2,
   (claim1_rectangularity.2.2.2 (Circuit.init 2) 0 1 TARGET
     ⟨1, Nat.one_pos, by decide⟩).2⟩

/-- C2: when `parse_op` raises (`UnsupportedGateException` or
`ModeMismatchException`), the error is produced before any grid mutation for
that event: the circuit state after the failed call equals the state before. -/
theorem claim2_error_before_mutation (c : Circuit) (ev : Event)
    (h : ((c.parse_op ev).2).isSome = true) :
    (c.parse_op ev).1 = c := by
  rcases hcl : gate_from_operator ev.opStr with _ | ⟨method, mode⟩
  · simp [Circuit.parse_op, hcl]
  · by_cases hmode : mode = ev.wires.length
    · simp [Circuit.parse_op, hcl, hmode] at h
    · simp [Circuit.parse_op, hcl, hmode]

theorem claim2_error_before_mutation_witness :
    (((Circuit.init 2).parse_op ⟨"Ggate(0.5)", [0]⟩).2).isSome = true ∧
    ((Circuit.init 2).parse_op ⟨"Ggate(0.5)", [0]⟩).1 = Circuit.init 2 :=
  ⟨by decide, claim2_error_before_mutation (Circuit.init 2) ⟨"Ggate(0.5)", [0]⟩ (by decide)⟩

/-- C3 is refuted as stated: on a two-wire gate kind applied to one wire, the
`ModeMismatchException` payload is the string
`'{0} mode gate applied to {1} wires!'.format(mode, len(wires))`, which
carries the expected arity and the actual wire count but does not contain the
gate-kind string. -/
theorem claim3_counterexample :
    ((Circuit.init 2).parse_op ⟨"BSgate(0.5)", [0]⟩).2 =
      some (DrawerError.modeMismatch "2 mode gate applied to 1 wires!") ∧
    strHasSub "2 mode gate applied to 1 wires!" "BSgate" = false := by
  exact ⟨by decide, by decide⟩

/-- C3 (amended): when the gate kind matches the tables with arity `arity` and
the wire count differs, `parse_op` fails with a `ModeMismatchException` whose
payload carries the expected arity and the actual wire count (and nothing
else: the gate-kind string is not included), and the circuit is unchanged. -/
theorem claim3_mode_mismatch_payload (c : Circuit) (ev : Event) (m : GateMethod)
    (arity : Nat) (hcl : gate_from_operator ev.opStr = some (m, arity))
    (hne : arity ≠ ev.wires.length) :
    (c.parse_op ev).2 = some (DrawerError.modeMismatch
      (mismatchMessage arity ev.wires.length)) ∧
    (c.parse_op ev).1 = c := by
  rw [Circuit.parse_op, hcl]
  simp [hne]

theorem claim3_mode_mismatch_payload_witness :
    ((Circuit.init 2).parse_op ⟨"BSgate(0.5)", [0]⟩).2 =
      some (DrawerError.modeMismatch (mismatchMessage 2 1)) :=
  (claim3_mode_mismatch_payload (Circuit.init 2) ⟨"BSgate(0.5)", [0]⟩ GateMethod.bs 2
    (by decide) (by decide)).1

/-- C4: applying a single-wire gate to a wire whose last cell is occupied
increases every wire's sequence length by exactly 1; wire `w`'s new cell holds
the gate label (non-empty) and every other wire's new cell is the empty-wire
label; no pre-existing cell changes. -/
theorem claim4_single_overflow (c : Circuit) (wire : Nat) (op : Cell)
    (hw : wire < c.circuit_matrix.length)
    (hocc : Circuit.is_empty (lastCell (rowAt c.circuit_matrix wire)) = false)
    (hop : Circuit.is_empty op = false) :
    (c.single_mode_gate wire op).circuit_matrix.length = c.circuit_matrix.length ∧
    (∀ i, i < c.circuit_matrix.length →
      (rowAt (c.single_mode_gate wire op).circuit_matrix i).length =
        (rowAt c.circuit_matrix i).length + 1) ∧
    lastCell (rowAt (c.single_mode_gate wire op).circuit_matrix wire) = op ∧
    Circuit.is_empty
      (lastCell (rowAt (c.single_mode_gate wire op).circuit_matrix wire)) = false ∧
    (∀ i, i < c.circuit_matrix.length → i ≠ wire →
      lastCell (rowAt (c.single_mode_gate wire op).circuit_matrix i) = QUANTUM_WIRE 1 ∧
      Circuit.is_empty
        (lastCell (rowAt (c.single_mode_gate wire op).circuit_matrix i)) = true) ∧
    (∀ i, i < c.circuit_matrix.length →
      (rowAt (c.single_mode_gate wire op).circuit_matrix i).dropLast =
        rowAt c.circuit_matrix i) := by
  rw [single_mode_gate_overflow c wire op hocc]
  dsimp only
  have hrow : ∀ i, i < c.circuit_matrix.length →
      rowAt (c.circuit_matrix.mapIdx fun i row =>
        if i = wire then row ++ [op] else row ++ [QUANTUM_WIRE 1]) i =
      (if i = wire then rowAt c.circuit_matrix i ++ [op]
       else rowAt c.circuit_matrix i ++ [QUANTUM_WIRE 1]) := by
    intro i hi
    exact rowAt_mapIdx _ c.circuit_matrix i hi
  refine ⟨by simp, fun i hi => ?_, ?_, ?_, fun i hi hne => ?_, fun i hi => ?_⟩
  · rw [hrow i hi]
    by_cases h : i = wire <;> simp [h]
  · rw [hrow wire hw]
    simp [lastCell_concat]
  · rw [hrow wire hw]
    simpa [lastCell_concat] using hop
  · rw [hrow i hi]
    simp [hne, lastCell_concat, is_empty_qw1]
  · rw [hrow i hi]
    by_cases h : i = wire <;> simp [h, List.dropLast_concat]

theorem claim4_single_overflow_witness :
    lastCell (rowAt (((Circuit.init 2).gd 0).single_mode_gate 0
      PAULI_X_COMP).circuit_matrix 0) = PAULI_X_COMP :=
  (claim4_single_overflow ((Circuit.init 2).gd 0) 0 PAULI_X_COMP (by decide) (by decide)
    (by decide)).2.2.1

/-- C5: applying a single-wire gate to a wire whose last cell is empty only
overwrites that wire's last cell with the gate label: the resulting grid is a
point update of the old one, other wires are untouched, the earlier cells of
the target wire are unchanged, and every wire keeps its length; the document
and spacing are untouched. -/
theorem claim5_single_reuse (c : Circuit) (wire : Nat) (op : Cell)
    (hw : wire < c.circuit_matrix.length)
    (hnil : rowAt c.circuit_matrix wire ≠ [])
    (hempty : Circuit.is_empty (lastCell (rowAt c.circuit_matrix wire)) = true) :
    (c.single_mode_gate wire op).circuit_matrix =
      c.circuit_matrix.set wire (setLast (rowAt c.circuit_matrix wire) op) ∧
    (c.single_mode_gate wire op).document = c.document ∧
    (∀ i, i ≠ wire →
      rowAt (c.single_mode_gate wire op).circuit_matrix i = rowAt c.circuit_matrix i) ∧
    (rowAt (c.single_mode_gate wire op).circuit_matrix wire).dropLast =
      (rowAt c.circuit_matrix wire).dropLast ∧
    lastCell (rowAt (c.single_mode_gate wire op).circuit_matrix wire) = op ∧
    (∀ i, i < c.circuit_matrix.length →
      (rowAt (c.single_mode_gate wire op).circuit_matrix i).length =
        (rowAt c.circuit_matrix i).length) := by
  rw [single_mode_gate_reuse c wire op hempty]
  dsimp only
  refine ⟨rfl, rfl, fun i hi => rowAt_set_ne _ _ _ _ (fun h => hi h.symm), ?_, ?_,
    fun i hi => ?_⟩
  · rw [rowAt_set_self _ _ _ hw, dropLast_setLast]
  · rw [rowAt_set_self _ _ _ hw, lastCell_setLast]
  · by_cases h : i = wire
    · subst h
      rw [rowAt_set_self _ _ _ hw, length_setLast _ _ hnil]
    · rw [rowAt_set_ne _ _ _ _ (fun hc => h hc.symm)]

theorem claim5_single_reuse_witness :
    ((Circuit.init 2).single_mode_gate 0 D_COMP).circuit_matrix =
      (Circuit.init 2).circuit_matrix.set 0
        (setLast (rowAt (Circuit.init 2).circuit_matrix 0) D_COMP) :=
  (claim5_single_reuse (Circuit.init 2) 0 D_COMP (by decide) (by decide) (by decide)).1

/-- C6: `_multi_mode_gate` keys on the whole rightmost column: whenever any
wire's last cell is occupied — whether or not that wire is targeted — a fresh
empty cell is appended to every wire and then the rightmost cell of each
targeted wire is overwritten with the gate label, so each targeted wire ends
in the label, each untargeted wire ends in an empty cell, and every wire grows
by exactly one cell. -/
theorem claim6_multi_mode_column (c : Circuit) (op : Cell) (ws : List Nat)
    (_hws : ∀ w ∈ ws, w < c.circuit_matrix.length)
    (hocc : ∃ i, ∃ h : i < c.circuit_matrix.length,
      Circuit.is_empty (lastCell c.circuit_matrix[i]) = false) :
    c.on_empty_column = false ∧
    (c.multi_mode_gate op ws).circuit_matrix.length = c.circuit_matrix.length ∧
    (∀ i, i < c.circuit_matrix.length →
      rowAt (c.multi_mode_gate op ws).circuit_matrix i =
        (if i ∈ ws then rowAt c.circuit_matrix i ++ [op]
         else rowAt c.circuit_matrix i ++ [QUANTUM_WIRE 1])) ∧
    (∀ i, i < c.circuit_matrix.length →
      (rowAt (c.multi_mode_gate op ws).circuit_matrix i).length =
        (rowAt c.circuit_matrix i).length + 1) ∧
    (∀ i, i < c.circuit_matrix.length → i ∈ ws →
      lastCell (rowAt (c.multi_mode_gate op ws).circuit_matrix i) = op) ∧
    (∀ i, i < c.circuit_matrix.length → i ∉ ws →
      lastCell (rowAt (c.multi_mode_gate op ws).circuit_matrix i) = QUANTUM_WIRE 1) := by
  have hcol : c.on_empty_column = false := (on_empty_column_eq_false_iff c).mpr hocc
  refine ⟨hcol, multi_mode_gate_occupied_length c op ws hcol,
    fun i hi => multi_mode_gate_occupied_rowAt c op ws hcol i hi,
    fun i hi => ?_, fun i hi hmem => ?_, fun i hi hmem => ?_⟩
  · rw [multi_mode_gate_occupied_rowAt c op ws hcol i hi]
    by_cases h : i ∈ ws <;> simp [h]
  · rw [multi_mode_gate_occupied_rowAt c op ws hcol i hi]
    simp [hmem, lastCell_concat]
  · rw [multi_mode_gate_occupied_rowAt c op ws hcol i hi]
    simp [hmem, lastCell_concat]

theorem claim6_multi_mode_column_witness :
    ((Circuit.init 3).gd 2).on_empty_column = false ∧
    (∀ i, i < (((Circuit.init 3).gd 2)).circuit_matrix.length → i ∈ [0, 1] →
      lastCell (rowAt (((Circuit.init 3).gd 2).multi_mode_gate BS_COMP
        [0, 1]).circuit_matrix i) = BS_COMP) :=
  ⟨(claim6_multi_mode_column ((Circuit.init 3).gd 2) BS_COMP [0, 1] (by decide)
      ⟨2, by decide, by decide⟩).1,
   (claim6_multi_mode_column ((Circuit.init 3).gd 2) BS_COMP [0, 1] (by decide)
      ⟨2, by decide, by decide⟩).2.2.2.2.1⟩

/-- C7: when both the source's and the target's rightmost cells are empty, the
controlled gate writes a control marker carrying the signed distance
`target - source` on the source's last cell and the gate label on the target's
last cell, leaves every other wire untouched and every wire's length
unchanged (the two marks land in the same column). -/
theorem claim7_controlled_distance (c : Circuit) (s t : Nat) (op : Cell)
    (hs : s < c.circuit_matrix.length) (ht : t < c.circuit_matrix.length)
    (hst : s ≠ t)
    (hsnil : rowAt c.circuit_matrix s ≠ []) (htnil : rowAt c.circuit_matrix t ≠ [])
    (hse : Circuit.is_empty (lastCell (rowAt c.circuit_matrix s)) = true)
    (hte : Circuit.is_empty (lastCell (rowAt c.circuit_matrix t)) = true) :
    lastCell (rowAt (c.controlled_mode_gate s t op).circuit_matrix s) =
      CONTROL ((t : Int) - (s : Int)) ∧
    lastCell (rowAt (c.controlled_mode_gate s t op).circuit_matrix t) = op ∧
    (∀ i, i ≠ s → i ≠ t →
      rowAt (c.controlled_mode_gate s t op).circuit_matrix i =
        rowAt c.circuit_matrix i) ∧
    (∀ i, i < c.circuit_matrix.length →
      (rowAt (c.controlled_mode_gate s t op).circuit_matrix i).length =
        (rowAt c.circuit_matrix i).length) ∧
    (c.controlled_mode_gate s t op).circuit_matrix.length = c.circuit_matrix.length := by
  rw [controlled_mode_gate_reuse c s t op hse hte]
  dsimp only
  have hlen1 : t < (c.circuit_matrix.set s
      (setLast (rowAt c.circuit_matrix s) (CONTROL ((t : Int) - (s : Int))))).length := by
    simpa using ht
  refine ⟨?_, ?_, fun i his hit => ?_, fun i hi => ?_, by simp⟩
  · rw [rowAt_set_ne _ _ _ _ (fun h => hst h.symm)]
    rw [rowAt_set_self _ _ _ hs, lastCell_setLast]
  · rw [rowAt_set_self _ _ _ hlen1, lastCell_setLast]
  · rw [rowAt_set_ne _ _ _ _ (fun h => hit h.symm),
      rowAt_set_ne _ _ _ _ (fun h => his h.symm)]
  · by_cases h1 : i = t
    · subst h1
      rw [rowAt_set_self _ _ _ hlen1, length_setLast _ _ htnil]
    · rw [rowAt_set_ne _ _ _ _ (fun h => h1 h.symm)]
      by_cases h2 : i = s
      · subst h2
        rw [rowAt_set_self _ _ _ hs, length_setLast _ _ hsnil]
      · rw [rowAt_set_ne _ _ _ _ (fun h => h2 h.symm)]

theorem claim7_controlled_distance_witness :
    lastCell (rowAt ((Circuit.init 3).controlled_mode_gate 0 2
      TARGET).circuit_matrix 0) = CONTROL 2 ∧
    lastCell (rowAt ((Circuit.init 3).controlled_mode_gate 2 0
      TARGET).circuit_matrix 2) = CONTROL (-2) :=
  ⟨by simpa using (claim7_controlled_distance (Circuit.init 3) 0 2 TARGET (by decide)
      (by decide) (by decide) (by decide) (by decide) (by decide) (by decide)).1,
   by simpa using (claim7_controlled_distance (Circuit.init 3) 2 0 TARGET (by decide)
      (by decide) (by decide) (by decide) (by decide) (by decide) (by decide)).1⟩

theorem classifyFold_no_match (table : List (String × GateMethod)) (mode : Nat)
    (s : String) (acc : Option (GateMethod × Nat))
    (h : ∀ p ∈ table, strHasSub s p.1 = false) :
    classifyFold table mode s acc = acc := by
  induction table generalizing acc with
  | nil => rfl
  | cons p rest ih =>
    have hp := h p (List.mem_cons_self p rest)
    simp only [classifyFold, List.foldl_cons, hp, Bool.false_eq_true, if_false]
    exact ih acc fun q hq => h q (List.mem_cons_of_mem p hq)

theorem classifyFold_match (table : List (String × GateMethod)) (mode : Nat)
    (s : String) (acc : Option (GateMethod × Nat))
    (h : ∃ p ∈ table, strHasSub s p.1 = true) :
    ∃ m, classifyFold table mode s acc = some (m, mode) ∧ m ∈ table.map Prod.snd := by
  induction table generalizing acc with
  | nil => simp at h
  | cons p rest ih =>
    by_cases hrest : ∃ q ∈ rest, strHasSub s q.1 = true
    · obtain ⟨m, hm, hmem⟩ := ih
        (if strHasSub s p.1 then some (p.2, mode) else acc) hrest
      refine ⟨m, ?_, List.mem_cons_of_mem p.2 hmem⟩
      simp only [classifyFold, List.foldl_cons]
      exact hm
    · push_neg at hrest
      obtain ⟨q, hq, hqsub⟩ := h
      rcases List.mem_cons.mp hq with rfl | hq'
      · refine ⟨q.2, ?_, List.mem_cons_self q.2 _⟩
        simp only [classifyFold, List.foldl_cons, hqsub, if_true]
        exact classifyFold_no_match rest mode s _
          fun r hr => Bool.not_eq_true _ ▸ hrest r hr
      · exact absurd hqsub (by simpa using hrest q hq')

/-- C8: classification precedence.  If any two-wire table key is a substring
of the operator string the result is a two-wire method with arity 2 — the
single-wire table is never consulted; only when no two-wire key matches is the
single-wire table checked (arity 1); if neither table matches, the result is
not-found. -/
theorem claim8_table_precedence (s : String) :
    ((∃ p ∈ two_mode_gates, strHasSub s p.1 = true) →
      ∃ m, gate_from_operator s = some (m, 2) ∧ m ∈ two_mode_gates.map Prod.snd) ∧
    ((∀ p ∈ two_mode_gates, strHasSub s p.1 = false) →
      (∃ p ∈ single_mode_gates, strHasSub s p.1 = true) →
      ∃ m, gate_from_operator s = some (m, 1) ∧ m ∈ single_mode_gates.map Prod.snd) ∧
    ((∀ p ∈ two_mode_gates, strHasSub s p.1 = false) →
      (∀ p ∈ single_mode_gates, strHasSub s p.1 = false) →
      gate_from_operator s = none) := by
  refine ⟨fun h2 => ?_, fun h2 h1 => ?_, fun h2 h1 => ?_⟩
  · obtain ⟨m, hm, hmem⟩ := classifyFold_match two_mode_gates 2 s none h2
    exact ⟨m, by rw [gate_from_operator, hm], hmem⟩
  · obtain ⟨m, hm, hmem⟩ := classifyFold_match single_mode_gates 1 s none h1
    refine ⟨m, ?_, hmem⟩
    rw [gate_from_operator, classifyFold_no_match two_mode_gates 2 s none h2, hm]
  · rw [gate_from_operator, classifyFold_no_match two_mode_gates 2 s none h2,
      classifyFold_no_match single_mode_gates 1 s none h1]

theorem claim8_table_precedence_witness :
    (∃ m, gate_from_operator "CXgate(0.3)" = some (m, 2) ∧
      m ∈ two_mode_gates.map Prod.snd) ∧
    (∃ m, gate_from_operator "Xgate(0.2)" = some (m, 1) ∧
      m ∈ single_mode_gates.map Prod.snd) ∧
    gate_from_operator "Ggate(0.1)" = none :=
  ⟨(claim8_table_precedence "CXgate(0.3)").1 (by decide),
   (claim8_table_precedence "Xgate(0.2)").2.1 (by decide) (by decide),
   (claim8_table_precedence "Ggate(0.1)").2.2 (by decide) (by decide)⟩

theorem foldl_wireOps (w : List Cell) (d : List DocToken) :
    w.foldl (fun doc op => doc ++ [DocToken.wireOp op]) d = d ++ w.map DocToken.wireOp := by
  induction w generalizing d with
  | nil => simp
  | cons x xs ih => simp [ih]

theorem foldl_wireRows (m : List (List Cell)) (d : List DocToken) :
    m.foldl
      (fun doc wire_ops =>
        (wire_ops.foldl (fun doc wire_op => doc ++ [DocToken.wireOp wire_op]) doc)
          ++ [DocToken.wireTerm]) d =
      d ++ (m.map fun w => w.map DocToken.wireOp ++ [DocToken.wireTerm]).flatten := by
  induction m generalizing d with
  | nil => simp
  | cons w rest ih =>
    rw [List.foldl_cons, foldl_wireOps, ih]
    simp

/-- C9: serialization is wire-major then column-minor: the emitted document is
the preamble, the spacing directives, the body start, then — for each wire in
increasing index order — all of that wire's cells wrapped as wire operations
followed by one wire terminator, then the body and document terminators.
Cells of different wires are never interleaved. -/
theorem claim9_serialization_order (c : Circuit) :
    (c.dump_to_document).1 =
      [DocToken.initDoc] ++ spacingTokens c ++ [DocToken.bodyStart] ++
      (c.circuit_matrix.map fun w =>
        w.map DocToken.wireOp ++ [DocToken.wireTerm]).flatten ++
      [DocToken.bodyTerm, DocToken.docEnd] := by
  rw [Circuit.dump_to_document]
  dsimp only
  rw [foldl_wireRows]
  simp

/-- C10: `dump_to_document` reads only the grid and the spacing configuration,
never mutates them, and resets the document at the start of each call; hence
the document it returns does not depend on the previously accumulated
document, and two consecutive calls return equal documents. -/
theorem claim10_dump_idempotent (c : Circuit) :
    (c.dump_to_document).2.circuit_matrix = c.circuit_matrix ∧
    (c.dump_to_document).2.column_spacing = c.column_spacing ∧
    (c.dump_to_document).2.row_spacing = c.row_spacing ∧
    (c.dump_to_document).2.document = (c.dump_to_document).1 ∧
    (∀ d : List DocToken,
      (({ c with document := d } : Circuit).dump_to_document).1 =
        (c.dump_to_document).1) ∧
    (((c.dump_to_document).2.dump_to_document)).1 = (c.dump_to_document).1 :=
  ⟨rfl, rfl, rfl, rfl, fun _ => rfl, rfl⟩

end CircuitDrawer
